import Mathlib

/-!
Verification development for the weaviate repository snapshot.

Part 1 embeds the schema data-type helpers of `entities/schema/data_types.go`
(`IsArrayType`, `AsPrimitive`, `FindPropertyDataTypeWithRefs`).

Part 2 models the HNSW vector-cache prefiller.  The Go implementation file of
the prefiller is not part of this source snapshot (only its test fixture is),
so the driver is modelled from the specification (spec.md §3-§5) and checked
against the behaviour pinned down by the test fixture
`vector_cache_prefiller_test.go`.
-/

set_option maxHeartbeats 1000000
set_option maxRecDepth 10000

/-! ### Part 1: entities/schema/data_types.go -/

/-- Go: `type DataType string`. -/
abbrev DataType := String

def DataTypeCRef : DataType := "cref"

def DataTypeText : DataType := "text"

def DataTypeInt : DataType := "int"

def DataTypeNumber : DataType := "number"

def DataTypeBoolean : DataType := "boolean"

def DataTypeDate : DataType := "date"

def DataTypeGeoCoordinates : DataType := "geoCoordinates"

def DataTypePhoneNumber : DataType := "phoneNumber"

def DataTypeBlob : DataType := "blob"

def DataTypeTextArray : DataType := "text[]"

def DataTypeIntArray : DataType := "int[]"

def DataTypeNumberArray : DataType := "number[]"

def DataTypeBooleanArray : DataType := "boolean[]"

def DataTypeDateArray : DataType := "date[]"

def DataTypeUUID : DataType := "uuid"

def DataTypeUUIDArray : DataType := "uuid[]"

def DataTypeString : DataType := "string"

def DataTypeStringArray : DataType := "string[]"

/-- Go: `var PrimitiveDataTypes []DataType`, in source order. -/
def PrimitiveDataTypes : List DataType :=
  [DataTypeText, DataTypeInt, DataTypeNumber, DataTypeBoolean, DataTypeDate,
   DataTypeGeoCoordinates, DataTypePhoneNumber, DataTypeBlob, DataTypeTextArray,
   DataTypeIntArray, DataTypeNumberArray, DataTypeBooleanArray, DataTypeDateArray,
   DataTypeUUID, DataTypeUUIDArray]

/-- Go: `var DeprecatedPrimitiveDataTypes []DataType`. -/
def DeprecatedPrimitiveDataTypes : List DataType :=
  [DataTypeString, DataTypeStringArray]

/-- All data-type constants declared in data_types.go (the cross-reference
marker plus the primitive and deprecated primitive types). -/
def allDefinedDataTypes : List DataType :=
  DataTypeCRef :: (PrimitiveDataTypes ++ DeprecatedPrimitiveDataTypes)

/-- Go: `func IsArrayType(dt DataType) (DataType, bool)`, a switch over the
array-typed constants in source order, defaulting to `("", false)`. -/
def IsArrayType (dt : DataType) : DataType × Bool :=
  if dt = DataTypeStringArray then (DataTypeString, true)
  else if dt = DataTypeTextArray then (DataTypeText, true)
  else if dt = DataTypeNumberArray then (DataTypeNumber, true)
  else if dt = DataTypeIntArray then (DataTypeInt, true)
  else if dt = DataTypeBooleanArray then (DataTypeBoolean, true)
  else if dt = DataTypeDateArray then (DataTypeDate, true)
  else if dt = DataTypeUUIDArray then (DataTypeUUID, true)
  else ("", false)

/-- First-rune lower-case test, mirroring `unicode.IsLower(rune(s[0]))` as used
in data_types.go on the first character of a non-empty string (the Go code only
reaches it after the emptiness check; on the paths relevant here the value is
never inspected on non-ASCII input). -/
def isLowerFirst (s : String) : Bool :=
  match s.data with
  | [] => false
  | c :: _ => c.isLower

/-- Result of `FindPropertyDataTypeWithRefs`: Go's `PropertyDataType` interface
realised by `propertyDataType`, which is either a primitive type or a list of
referenced class names (`PropertyKindPrimitive` / `PropertyKindRef`). -/
inductive PropertyDataType where
  | primitive (dt : DataType)
  | ref (classes : List String)
  deriving DecidableEq

/-- Collaborators of `FindPropertyDataTypeWithRefs` defined in other files of
the schema package that are not part of this snapshot (`ValidateClassName`,
`Schema.FindClassByName`, `ErrRefToNonexistentClass`); they are abstracted as
parameters. -/
structure SchemaOps where
  validateClassName : String → Except String String
  findClassByName : String → Option Unit
  errRefToNonexistentClass : String

/-- The reference branch of `FindPropertyDataTypeWithRefs`: validate every
entry as a class name, optionally check existence, and accumulate the class
names in order. -/
def findRefClasses (ops : SchemaOps) (relaxCrossRefValidation : Bool)
    (beloningToClass : String) : List String → Except String (List String)
  | [] => Except.ok []
  | d :: rest =>
    match ops.validateClassName d with
    | Except.error e => Except.error e
    | Except.ok className =>
      if beloningToClass ≠ className ∧ relaxCrossRefValidation = false then
        match ops.findClassByName className with
        | none => Except.error ops.errRefToNonexistentClass
        | some _ =>
          match findRefClasses ops relaxCrossRefValidation beloningToClass rest with
          | Except.error e => Except.error e
          | Except.ok more => Except.ok (className :: more)
      else
        match findRefClasses ops relaxCrossRefValidation beloningToClass rest with
        | Except.error e => Except.error e
        | Except.ok more => Except.ok (className :: more)

/-- Go: `func (s *Schema) FindPropertyDataTypeWithRefs(dataType []string,
relaxCrossRefValidation bool, beloningToClass ClassName) (PropertyDataType, error)`.
A single-element list is first matched against the primitive data types, then
rejected if empty or lower-cased; otherwise (and for longer lists) every
element is treated as a class reference. -/
def FindPropertyDataTypeWithRefs (ops : SchemaOps) (dataType : List String)
    (relaxCrossRefValidation : Bool) (beloningToClass : String) :
    Except String PropertyDataType :=
  if dataType.length < 1 then
    Except.error "dataType must have at least one element"
  else
    let refPath :=
      match findRefClasses ops relaxCrossRefValidation beloningToClass dataType with
      | Except.error e => Except.error e
      | Except.ok classes => Except.ok (PropertyDataType.ref classes)
    if dataType.length = 1 then
      match dataType.head? with
      | none => refPath
      | some d =>
        match (PrimitiveDataTypes ++ DeprecatedPrimitiveDataTypes).find?
            (fun dt => d = dt) with
        | some dt => Except.ok (PropertyDataType.primitive dt)
        | none =>
          if d.length = 0 then Except.error "dataType cannot be an empty string"
          else if isLowerFirst d then
            Except.error ("Unknown primitive data type '" ++ d ++ "'")
          else refPath
    else refPath

/-- Go: `func AsPrimitive(dataType []string) (DataType, bool)`. -/
def AsPrimitive (dataType : List String) : DataType × Bool :=
  match dataType with
  | [d] =>
    match (PrimitiveDataTypes ++ DeprecatedPrimitiveDataTypes).find?
        (fun dt => d = dt) with
    | some dt => (dt, true)
    | none =>
      if d.length = 0 then ("", true)
      else ("", isLowerFirst d)
  | _ => ("", false)

/-! ### Part 2: the HNSW vector-cache prefiller

Modelled from the spec: the Go file implementing `vectorCachePrefiller` is not
part of this snapshot (only `vector_cache_prefiller_test.go` is), so the
driver below transcribes the algorithm of spec.md §4.1, the graph-view adapter
of §4.2 and the lock discipline of §5 ("shard locks are acquired for the
minimum window needed to read `level`; the cache `load` call is performed
outside any shard lock"). -/

/-- Graph node, as in the test fixture: an id and the highest layer the node
appears on. -/
structure vertex where
  id : Nat
  level : Nat
  deriving DecidableEq

/-- Level of node `i` as read from the node table (0 when out of range; the
driver only reads indices below the table length). -/
def levelAt (nodes : List vertex) (i : Nat) : Nat :=
  match nodes[i]? with
  | some v => v.level
  | none => 0

/-- Modelled from the spec: the arguments and collaborators of one
`Prefill(ctx, limit)` call.  `capacity` is `cache.currentCapacity()`;
`cancelAt` models the cancellation context as the index of the first poll at
which the context reports cancellation (`none`: never); `loadErr` tells which
`cache.load` calls fail; `stripes` is the shard count `S` of the sharded node
locks. -/
structure PrefillParams where
  nodes : List vertex
  maxLayer : Nat
  capacity : Int
  limit : Int
  cancelAt : Option Nat
  loadErr : Nat → Bool
  stripes : Nat

/-- The effective budget `B = min(limit, cache.currentCapacity())` (spec §4.1). -/
def PrefillParams.B (P : PrefillParams) : Int := min P.limit P.capacity

/-- Observable events of one prefill call: shard-lock acquisition and release
(shared mode), a per-node level read, a cancellation poll, and a cache `load`
invocation together with whether that load failed. -/
inductive Ev where
  | lock (s : Nat)
  | readLevel (id lvl : Nat)
  | unlock (s : Nat)
  | poll
  | load (id : Nat) (err : Bool)
  deriving DecidableEq

/-- Per-call driver state: the `Loaded` set in emission order, the number of
cancellation polls made so far, and whether the driver has stopped (budget
exhausted or cancellation observed). -/
structure Core where
  loaded : List Nat
  polls : Nat
  stopped : Bool
  deriving DecidableEq

/-- Whether the cancellation context has fired by the time of poll number
`polls`. -/
def cancelFires (cancelAt : Option Nat) (polls : Nat) : Bool :=
  match cancelAt with
  | none => false
  | some k => decide (k ≤ polls)

/-- One candidate visit of the driver (spec §4.1 step 2, §4.2, §5): read the
node's level under the shard lock `id mod S`; if the node belongs to the
current layer and was not loaded at a higher layer, stop when the budget is
met, poll the context (stopping on cancellation), and otherwise invoke
`cache.load(id)` outside any shard lock, adding `id` to `Loaded` regardless of
the load result. -/
def stepId (P : PrefillParams) (L id : Nat) (c : Core) : Core × List Ev :=
  if c.stopped = true then (c, [])
  else if L ≤ levelAt P.nodes id ∧ ¬ id ∈ c.loaded then
    if P.B ≤ (c.loaded.length : Int) then
      ({ c with stopped := true },
       [Ev.lock (id % P.stripes), Ev.readLevel id (levelAt P.nodes id),
        Ev.unlock (id % P.stripes)])
    else if cancelFires P.cancelAt c.polls then
      ({ c with polls := c.polls + 1, stopped := true },
       [Ev.lock (id % P.stripes), Ev.readLevel id (levelAt P.nodes id),
        Ev.unlock (id % P.stripes), Ev.poll])
    else
      ({ c with loaded := c.loaded ++ [id], polls := c.polls + 1 },
       [Ev.lock (id % P.stripes), Ev.readLevel id (levelAt P.nodes id),
        Ev.unlock (id % P.stripes), Ev.poll, Ev.load id (P.loadErr id)])
  else
    (c, [Ev.lock (id % P.stripes), Ev.readLevel id (levelAt P.nodes id),
         Ev.unlock (id % P.stripes)])

/-- One layer iteration: visit candidate ids in ascending order. -/
def runIds (P : PrefillParams) (L : Nat) : List Nat → Core → Core × List Ev
  | [], c => (c, [])
  | id :: rest, c =>
    match stepId P L id c with
    | (c1, e1) =>
      match runIds P L rest c1 with
      | (c2, e2) => (c2, e1 ++ e2)

/-- The layer loop: iterate the given layers, enumerating the full id range of
the node table on each. -/
def runLayers (P : PrefillParams) : List Nat → Core → Core × List Ev
  | [], c => (c, [])
  | L :: rest, c =>
    match runIds P L (List.range P.nodes.length) c with
    | (c1, e1) =>
      match runLayers P rest c1 with
      | (c2, e2) => (c2, e1 ++ e2)

/-- Layers from `M` down to `0` (spec §4.1 step 2: `L = M down to 0`). -/
def layersTopDown : Nat → List Nat
  | 0 => [0]
  | m + 1 => (m + 1) :: layersTopDown m

/-- Fresh per-call state: empty `Loaded` set, no polls, running. -/
def initCore : Core := ⟨[], 0, false⟩

/-- Modelled from the spec: `Prefill(ctx, limit)` (spec §4.1).  If the
effective budget `B = min(limit, currentCapacity)` is non-positive the call is
a no-op; otherwise the driver walks layers `maxLayer … 0`, ids ascending. -/
def Prefill (P : PrefillParams) : Core × List Ev :=
  if P.B ≤ 0 then (initCore, [])
  else runLayers P (layersTopDown P.maxLayer) initCore

/-- The ids passed to `cache.load`, in invocation order. -/
def loadedIds (P : PrefillParams) : List Nat := (Prefill P).1.loaded

/-- The event trace of one prefill call. -/
def prefillTrace (P : PrefillParams) : List Ev := (Prefill P).2

/-- The ids of the `load` events of a trace, in order. -/
def loadIdsOf (evs : List Ev) : List Nat :=
  evs.filterMap (fun ev =>
    match ev with
    | Ev.load id _ => some id
    | _ => none)

/-- Lock-discipline checker over a trace: every level read is bracketed by
acquiring and releasing exactly the shard lock `id mod S`, held for nothing
but that read, and polls and `load` invocations happen while no shard lock is
held. -/
def checkLocks (S : Nat) : List Ev → Bool
  | [] => true
  | Ev.poll :: rest => checkLocks S rest
  | Ev.load _ _ :: rest => checkLocks S rest
  | Ev.lock s :: Ev.readLevel id _ :: Ev.unlock s' :: rest =>
    s == id % S && s' == s && checkLocks S rest
  | _ => false

/-- One step of the canonical warm-up sequence `W` (spec §8): append `id` if
its level reaches layer `L` and it was not emitted at a higher layer. -/
def wStep (nodes : List vertex) (L id : Nat) (acc : List Nat) : List Nat :=
  if L ≤ levelAt nodes id ∧ ¬ id ∈ acc then acc ++ [id] else acc

/-- One layer of `W`: ids in ascending order. -/
def wIds (nodes : List vertex) (L : Nat) : List Nat → List Nat → List Nat
  | [], acc => acc
  | id :: rest, acc => wIds nodes L rest (wStep nodes L id acc)

/-- The layer loop of `W`. -/
def wLayers (nodes : List vertex) : List Nat → List Nat → List Nat
  | [], acc => acc
  | L :: rest, acc => wLayers nodes rest (wIds nodes L (List.range nodes.length) acc)

/-- The canonical warm-up sequence `W` (spec §8): layers `M … 0`, ascending id
within each layer, skipping ids already emitted. -/
def warmupSeq (nodes : List vertex) (M : Nat) : List Nat :=
  wLayers nodes (layersTopDown M) []

/-- The ids of exact level `L`, ascending: the block `W` emits at layer `L`
when every node level is at most the maximum layer. -/
def layerBlock (nodes : List vertex) (L : Nat) : List Nat :=
  (List.range nodes.length).filter (fun i => levelAt nodes i == L)

/-- The priority order of the prefiller: strictly higher level first, ids
ascending within a level. -/
def loadOrder (nodes : List vertex) (a b : Nat) : Prop :=
  levelAt nodes b < levelAt nodes a ∨
    (levelAt nodes a = levelAt nodes b ∧ a < b)

/-- Modelled from the spec: the prefiller object (spec §2-§3).  It holds the
borrowed graph view and cache hint; `scratch` is the `Loaded` bookkeeping
buffer, which per spec §5 is private to one call. -/
structure vectorCachePrefiller where
  nodes : List vertex
  maxLayer : Nat
  capacity : Int
  stripes : Nat
  scratch : List Nat

/-- A freshly constructed prefiller. -/
def newVectorCachePrefiller (nodes : List vertex) (maxLayer : Nat)
    (capacity : Int) (stripes : Nat) : vectorCachePrefiller :=
  ⟨nodes, maxLayer, capacity, stripes, []⟩

/-- One `Prefill` call on a prefiller object: the `Loaded` bookkeeping starts
empty (spec §4.1 step 2a) and the call returns the ids loaded. -/
def PrefillCall (pf : vectorCachePrefiller) (limit : Int) (cancelAt : Option Nat)
    (loadErr : Nat → Bool) : vectorCachePrefiller × List Nat :=
  match Prefill ⟨pf.nodes, pf.maxLayer, pf.capacity, limit, cancelAt, loadErr,
      pf.stripes⟩ with
  | (c, _) => ({ pf with scratch := c.loaded }, c.loaded)

/-- Test oracle of `vector_cache_prefiller_test.go`: layer 3 for multiples of
15, layer 2 for multiples of 5, layer 1 for multiples of 3, else layer 0. -/
def levelForDummyVertex (id : Nat) : Nat :=
  if id % 15 = 0 then 3
  else if id % 5 = 0 then 2
  else if id % 3 = 0 then 1
  else 0

/-- Test fixture: `amount` vertices with `id = index` and the oracle levels. -/
def generateDummyVertices (amount : Nat) : List vertex :=
  (List.range amount).map (fun i => { id := i, level := levelForDummyVertex i })

/-- Modelled from the spec: the stripe width of the sharded node locks (spec
§3, "a compile-time stripe width, e.g. 128"; the constant itself is declared
in an hnsw file outside this snapshot). -/
def NodeLockStripe : Nat := 128

/-- The prefill parameters used by the test fixture, with a chosen limit,
capacity, cancellation point and load-failure pattern. -/
def oracleParams (limit capacity : Int) (cancelAt : Option Nat)
    (loadErr : Nat → Bool) : PrefillParams :=
  ⟨generateDummyVertices 100, 3, capacity, limit, cancelAt, loadErr, NodeLockStripe⟩

/-- Claim C9: `IsArrayType` is a right inverse of appending "[]": whenever it
returns `(base, true)` the input equals `base ++ "[]"`, and among the data
types declared in data_types.go it returns `("", false)` exactly on those that
are not of the form `base ++ "[]"` for a declared base type. -/
theorem claim_c9 :
    (∀ dt base : DataType, IsArrayType dt = (base, true) → base ++ "[]" = dt) ∧
    (∀ dt ∈ allDefinedDataTypes,
      (IsArrayType dt = ("", false) ↔
        ¬ ∃ base ∈ allDefinedDataTypes, dt = base ++ "[]")) := by
  constructor
  · intro dt base h
    unfold IsArrayType at h
    split_ifs at h with h1 h2 h3 h4 h5 h6 h7 <;> simp at h <;>
      first
      | (subst h; rw [h1]; decide)
      | (subst h; rw [h2]; decide)
      | (subst h; rw [h3]; decide)
      | (subst h; rw [h4]; decide)
      | (subst h; rw [h5]; decide)
      | (subst h; rw [h6]; decide)
      | (subst h; rw [h7]; decide)
  · decide

/-- Witness for C9 at the concrete input `"text[]"` (an array type) and
`"text"` (a non-array type). -/
theorem claim_c9_witness :
    DataTypeText ++ "[]" = DataTypeTextArray ∧
    (IsArrayType DataTypeText = ("", false) ↔
      ¬ ∃ base ∈ allDefinedDataTypes, DataTypeText = base ++ "[]") :=
  ⟨claim_c9.1 DataTypeTextArray DataTypeText (by decide),
   claim_c9.2 DataTypeText (by decide)⟩

/-- Claim C10: on the single-element empty-string input, `AsPrimitive` reports
the value as handled (`("", true)`) while `FindPropertyDataTypeWithRefs`
returns the error "dataType cannot be an empty string" (and no property data
type), for every schema, relaxation flag and owning class. -/
theorem claim_c10 :
    AsPrimitive [""] = ("", true) ∧
    ∀ (ops : SchemaOps) (relax : Bool) (cls : String),
      FindPropertyDataTypeWithRefs ops [""] relax cls =
        Except.error "dataType cannot be an empty string" := by
  refine ⟨by decide, fun ops relax cls => rfl⟩

/-! ### Structure of the canonical warm-up sequence -/

theorem wStep_pre (nodes : List vertex) (L id : Nat) (acc : List Nat) :
    acc <+: wStep nodes L id acc := by
  unfold wStep
  split
  · exact List.prefix_append _ _
  · exact List.prefix_rfl

theorem wIds_pre (nodes : List vertex) (L : Nat) :
    ∀ (ids acc : List Nat), acc <+: wIds nodes L ids acc
  | [], _ => List.prefix_rfl
  | id :: rest, acc =>
    (wStep_pre nodes L id acc).trans (wIds_pre nodes L rest _)

theorem wLayers_pre (nodes : List vertex) :
    ∀ (layers : List Nat) (acc : List Nat), acc <+: wLayers nodes layers acc
  | [], _ => List.prefix_rfl
  | L :: rest, acc =>
    (wIds_pre nodes L (List.range nodes.length) acc).trans
      (wLayers_pre nodes rest _)

theorem wStep_nodup {nodes : List vertex} {L id : Nat} {acc : List Nat}
    (h : acc.Nodup) : (wStep nodes L id acc).Nodup := by
  unfold wStep
  split
  · next hg => simp [List.nodup_append, h, hg.2]
  · exact h

theorem wIds_nodup (nodes : List vertex) (L : Nat) :
    ∀ (ids acc : List Nat), acc.Nodup → (wIds nodes L ids acc).Nodup
  | [], _, h => h
  | id :: rest, acc, h => wIds_nodup nodes L rest _ (wStep_nodup h)

theorem wLayers_nodup (nodes : List vertex) :
    ∀ (layers : List Nat) (acc : List Nat), acc.Nodup →
      (wLayers nodes layers acc).Nodup
  | [], _, h => h
  | L :: rest, acc, h =>
    wLayers_nodup nodes rest _ (wIds_nodup nodes L (List.range nodes.length) acc h)

theorem warmupSeq_nodup (nodes : List vertex) (M : Nat) :
    (warmupSeq nodes M).Nodup :=
  wLayers_nodup nodes (layersTopDown M) [] List.nodup_nil

theorem mem_wStep {nodes : List vertex} {L id i : Nat} {acc : List Nat}
    (h : i ∈ wStep nodes L id acc) : i ∈ acc ∨ i = id := by
  unfold wStep at h
  split at h
  · rcases List.mem_append.1 h with h | h
    · exact Or.inl h
    · exact Or.inr (List.mem_singleton.1 h)
  · exact Or.inl h

theorem mem_wIds {nodes : List vertex} {L i : Nat} :
    ∀ {ids acc : List Nat}, i ∈ wIds nodes L ids acc → i ∈ acc ∨ i ∈ ids := by
  intro ids
  induction ids with
  | nil => exact fun h => Or.inl h
  | cons id rest ih =>
    intro acc h
    rcases ih h with h' | h'
    · rcases mem_wStep h' with h'' | h''
      · exact Or.inl h''
      · exact Or.inr (by simp [h''])
    · exact Or.inr (List.mem_cons_of_mem _ h')

theorem mem_wLayers {nodes : List vertex} {i : Nat} :
    ∀ {layers acc : List Nat}, i ∈ wLayers nodes layers acc →
      i ∈ acc ∨ i ∈ List.range nodes.length := by
  intro layers
  induction layers with
  | nil => exact fun h => Or.inl h
  | cons L rest ih =>
    intro acc h
    rcases ih h with h' | h'
    · exact mem_wIds h'
    · exact Or.inr h'

theorem warmupSeq_lt_length {nodes : List vertex} {M i : Nat}
    (h : i ∈ warmupSeq nodes M) : i < nodes.length := by
  rcases mem_wLayers h with h' | h'
  · simp at h'
  · exact List.mem_range.1 h'

theorem mem_wIds_zero (nodes : List vertex) {i : Nat} :
    ∀ (ids acc : List Nat), i ∈ ids → i ∈ wIds nodes 0 ids acc
  | id :: rest, acc, h => by
    rcases List.mem_cons.1 h with h' | h'
    · subst h'
      refine ((wIds_pre nodes 0 rest _).sublist.subset) ?_
      unfold wStep
      split
      · exact List.mem_append.2 (Or.inr (List.mem_singleton.2 rfl))
      · next hg =>
        have : i ∈ acc := by
          by_contra hc
          exact hg ⟨Nat.zero_le _, hc⟩
        exact this
    · exact mem_wIds_zero nodes rest _ h'

theorem zero_mem_layersTopDown (M : Nat) : 0 ∈ layersTopDown M := by
  induction M with
  | zero => simp [layersTopDown]
  | succ m ih => exact List.mem_cons_of_mem _ ih

theorem mem_wLayers_zero (nodes : List vertex) {i : Nat}
    (hi : i ∈ List.range nodes.length) :
    ∀ (layers acc : List Nat), 0 ∈ layers → i ∈ wLayers nodes layers acc
  | L :: rest, acc, h0 => by
    rcases List.mem_cons.1 h0 with h' | h'
    · subst h'
      exact ((wLayers_pre nodes rest _).sublist.subset)
        (mem_wIds_zero nodes _ acc hi)
    · exact mem_wLayers_zero nodes hi rest _ h'

theorem mem_warmupSeq {nodes : List vertex} {M i : Nat}
    (h : i < nodes.length) : i ∈ warmupSeq nodes M :=
  mem_wLayers_zero nodes (List.mem_range.2 h) (layersTopDown M) []
    (zero_mem_layersTopDown M)

theorem warmupSeq_length (nodes : List vertex) (M : Nat) :
    (warmupSeq nodes M).length = nodes.length := by
  apply Nat.le_antisymm
  · have h1 : List.Subperm (warmupSeq nodes M) (List.range nodes.length) :=
      List.subperm_of_subset (warmupSeq_nodup nodes M)
        (fun i hi => List.mem_range.2 (warmupSeq_lt_length hi))
    simpa using h1.length_le
  · have h2 : List.Subperm (List.range nodes.length) (warmupSeq nodes M) :=
      List.subperm_of_subset (List.nodup_range _)
        (fun i hi => mem_warmupSeq (List.mem_range.1 hi))
    simpa using h2.length_le

/-! ### Driver invariants -/

theorem runIds_cons (P : PrefillParams) (L id : Nat) (rest : List Nat) (c : Core) :
    runIds P L (id :: rest) c =
      ((runIds P L rest (stepId P L id c).1).1,
       (stepId P L id c).2 ++ (runIds P L rest (stepId P L id c).1).2) := rfl

theorem runLayers_cons (P : PrefillParams) (L : Nat) (rest : List Nat) (c : Core) :
    runLayers P (L :: rest) c =
      ((runLayers P rest (runIds P L (List.range P.nodes.length) c).1).1,
       (runIds P L (List.range P.nodes.length) c).2 ++
         (runLayers P rest (runIds P L (List.range P.nodes.length) c).1).2) := rfl

/-- Budget-tracking invariant relating a driver state to the warm-up prefix
built from the same visits (valid for every cancellation behaviour). -/
def DriverInv (b : Nat) (c : Core) (w : List Nat) : Prop :=
  (c.stopped = false → c.loaded = w ∧ w.length ≤ b) ∧
  (c.stopped = true → c.loaded <+: w ∧ c.loaded.length ≤ b)

/-- Exact budget invariant when the context never fires: a stopped driver
holds precisely the first `b` elements of the warm-up prefix. -/
def DriverInvX (b : Nat) (c : Core) (w : List Nat) : Prop :=
  (c.stopped = false → c.loaded = w ∧ w.length ≤ b) ∧
  (c.stopped = true → b ≤ w.length ∧ c.loaded = w.take b)

theorem stepId_inv {P : PrefillParams} {L id : Nat} {c : Core} {w : List Nat}
    (hB : 0 < P.B) (h : DriverInv P.B.toNat c w) :
    DriverInv P.B.toNat (stepId P L id c).1 (wStep P.nodes L id w) := by
  obtain ⟨hrun, hstop⟩ := h
  by_cases hs : c.stopped = true
  · have e1 : (stepId P L id c).1 = c := by simp [stepId, hs]
    rw [e1]
    obtain ⟨hp, hl⟩ := hstop hs
    exact ⟨fun hf => by simp [hs] at hf,
      fun _ => ⟨hp.trans (wStep_pre _ _ _ _), hl⟩⟩
  · simp only [Bool.not_eq_true] at hs
    obtain ⟨hlw, hwb⟩ := hrun hs
    subst hlw
    by_cases hg : L ≤ levelAt P.nodes id ∧ ¬ id ∈ c.loaded
    · have e2 : wStep P.nodes L id c.loaded = c.loaded ++ [id] := by
        simp [wStep, hg.1, hg.2]
      by_cases hbud : P.B ≤ (c.loaded.length : Int)
      · have e1 : (stepId P L id c).1 = { c with stopped := true } := by
          simp [stepId, hs, hg.1, hg.2, hbud]
        rw [e1, e2]
        exact ⟨fun hf => by simp at hf,
          fun _ => ⟨List.prefix_append _ _, hwb⟩⟩
      · by_cases hcan : cancelFires P.cancelAt c.polls = true
        · have e1 : (stepId P L id c).1 =
              { c with polls := c.polls + 1, stopped := true } := by
            simp [stepId, hs, hg.1, hg.2, hbud, hcan]
          rw [e1, e2]
          exact ⟨fun hf => by simp at hf,
            fun _ => ⟨List.prefix_append _ _, hwb⟩⟩
        · have e1 : (stepId P L id c).1 =
              { c with loaded := c.loaded ++ [id], polls := c.polls + 1 } := by
            simp [stepId, hs, hg.1, hg.2, hbud, hcan]
          rw [e1, e2]
          refine ⟨fun _ => ⟨rfl, ?_⟩, fun hf => by simp [hs] at hf⟩
          simp only [List.length_append, List.length_singleton]
          omega
    · have e1 : (stepId P L id c).1 = c := by
        simp only [stepId, hs]
        simp [hg]
      have e2 : wStep P.nodes L id c.loaded = c.loaded := by
        simp only [wStep]
        simp [hg]
      rw [e1, e2]
      exact ⟨fun _ => ⟨rfl, hwb⟩, fun hf => by simp [hs] at hf⟩

theorem stepId_invX {P : PrefillParams} {L id : Nat} {c : Core} {w : List Nat}
    (hB : 0 < P.B) (hc : P.cancelAt = none) (h : DriverInvX P.B.toNat c w) :
    DriverInvX P.B.toNat (stepId P L id c).1 (wStep P.nodes L id w) := by
  obtain ⟨hrun, hstop⟩ := h
  by_cases hs : c.stopped = true
  · have e1 : (stepId P L id c).1 = c := by simp [stepId, hs]
    rw [e1]
    obtain ⟨hbw, hl⟩ := hstop hs
    refine ⟨fun hf => by simp [hs] at hf, fun _ => ⟨?_, ?_⟩⟩
    · exact le_trans hbw (wStep_pre _ _ _ _).length_le
    · unfold wStep
      split
      · rw [List.take_append_of_le_length hbw]
        exact hl
      · exact hl
  · simp only [Bool.not_eq_true] at hs
    obtain ⟨hlw, hwb⟩ := hrun hs
    subst hlw
    by_cases hg : L ≤ levelAt P.nodes id ∧ ¬ id ∈ c.loaded
    · have e2 : wStep P.nodes L id c.loaded = c.loaded ++ [id] := by
        simp [wStep, hg.1, hg.2]
      by_cases hbud : P.B ≤ (c.loaded.length : Int)
      · have e1 : (stepId P L id c).1 = { c with stopped := true } := by
          simp [stepId, hs, hg.1, hg.2, hbud]
        rw [e1, e2]
        have hb : P.B.toNat = c.loaded.length := by omega
        refine ⟨fun hf => by simp at hf, fun _ => ⟨?_, ?_⟩⟩
        · simp only [List.length_append, List.length_singleton]
          omega
        · rw [hb, List.take_append_of_le_length (le_refl _), List.take_length]
      · by_cases hcan : cancelFires P.cancelAt c.polls = true
        · rw [hc] at hcan
          simp [cancelFires] at hcan
        · have e1 : (stepId P L id c).1 =
              { c with loaded := c.loaded ++ [id], polls := c.polls + 1 } := by
            simp [stepId, hs, hg.1, hg.2, hbud, hcan]
          rw [e1, e2]
          refine ⟨fun _ => ⟨rfl, ?_⟩, fun hf => by simp [hs] at hf⟩
          simp only [List.length_append, List.length_singleton]
          omega
    · have e1 : (stepId P L id c).1 = c := by
        simp only [stepId, hs]
        simp [hg]
      have e2 : wStep P.nodes L id c.loaded = c.loaded := by
        simp only [wStep]
        simp [hg]
      rw [e1, e2]
      exact ⟨fun _ => ⟨rfl, hwb⟩, fun hf => by simp [hs] at hf⟩

theorem runIds_inv {P : PrefillParams} {L : Nat} (hB : 0 < P.B) :
    ∀ (ids : List Nat) (c : Core) (w : List Nat), DriverInv P.B.toNat c w →
      DriverInv P.B.toNat (runIds P L ids c).1 (wIds P.nodes L ids w)
  | [], _, _, h => h
  | id :: rest, c, w, h =>
    runIds_inv hB rest (stepId P L id c).1 (wStep P.nodes L id w)
      (stepId_inv hB h)

theorem runIds_invX {P : PrefillParams} {L : Nat} (hB : 0 < P.B)
    (hc : P.cancelAt = none) :
    ∀ (ids : List Nat) (c : Core) (w : List Nat), DriverInvX P.B.toNat c w →
      DriverInvX P.B.toNat (runIds P L ids c).1 (wIds P.nodes L ids w)
  | [], _, _, h => h
  | id :: rest, c, w, h =>
    runIds_invX hB hc rest (stepId P L id c).1 (wStep P.nodes L id w)
      (stepId_invX hB hc h)

theorem runLayers_inv {P : PrefillParams} (hB : 0 < P.B) :
    ∀ (layers : List Nat) (c : Core) (w : List Nat), DriverInv P.B.toNat c w →
      DriverInv P.B.toNat (runLayers P layers c).1 (wLayers P.nodes layers w)
  | [], _, _, h => h
  | L :: rest, c, w, h =>
    runLayers_inv hB rest _ _ (runIds_inv hB (List.range P.nodes.length) c w h)

theorem runLayers_invX {P : PrefillParams} (hB : 0 < P.B)
    (hc : P.cancelAt = none) :
    ∀ (layers : List Nat) (c : Core) (w : List Nat), DriverInvX P.B.toNat c w →
      DriverInvX P.B.toNat (runLayers P layers c).1 (wLayers P.nodes layers w)
  | [], _, _, h => h
  | L :: rest, c, w, h =>
    runLayers_invX hB hc rest _ _
      (runIds_invX hB hc (List.range P.nodes.length) c w h)

theorem prefill_pre_warmup (P : PrefillParams) :
    loadedIds P <+: warmupSeq P.nodes P.maxLayer := by
  unfold loadedIds Prefill
  split
  · simp [initCore]
  · next h =>
    have hB : 0 < P.B := by omega
    have hInv : DriverInv P.B.toNat initCore [] :=
      ⟨fun _ => ⟨rfl, by simp [initCore]⟩, fun hf => by simp [initCore] at hf⟩
    have hfin := runLayers_inv hB (layersTopDown P.maxLayer) initCore [] hInv
    by_cases hstop : (runLayers P (layersTopDown P.maxLayer) initCore).1.stopped = true
    · exact (hfin.2 hstop).1
    · have h2 := hfin.1 (by simpa using hstop)
      exact h2.1 ▸ List.prefix_rfl

theorem prefill_len_le (P : PrefillParams) :
    (loadedIds P).length ≤ P.B.toNat := by
  unfold loadedIds Prefill
  split
  · simp [initCore]
  · next h =>
    have hB : 0 < P.B := by omega
    have hInv : DriverInv P.B.toNat initCore [] :=
      ⟨fun _ => ⟨rfl, by simp [initCore]⟩, fun hf => by simp [initCore] at hf⟩
    have hfin := runLayers_inv hB (layersTopDown P.maxLayer) initCore [] hInv
    by_cases hstop : (runLayers P (layersTopDown P.maxLayer) initCore).1.stopped = true
    · exact (hfin.2 hstop).2
    · have h2 := hfin.1 (by simpa using hstop)
      rw [h2.1]
      exact h2.2

theorem prefill_eq_take (P : PrefillParams) (hc : P.cancelAt = none) :
    loadedIds P = (warmupSeq P.nodes P.maxLayer).take P.B.toNat := by
  unfold loadedIds Prefill
  split
  · next h =>
    have hb0 : P.B.toNat = 0 := by omega
    simp [initCore, hb0]
  · next h =>
    have hB : 0 < P.B := by omega
    have hInv : DriverInvX P.B.toNat initCore [] :=
      ⟨fun _ => ⟨rfl, by simp [initCore]⟩, fun hf => by simp [initCore] at hf⟩
    have hfin := runLayers_invX hB hc (layersTopDown P.maxLayer) initCore [] hInv
    by_cases hstop : (runLayers P (layersTopDown P.maxLayer) initCore).1.stopped = true
    · exact (hfin.2 hstop).2
    · obtain ⟨hlw, hwb⟩ := hfin.1 (by simpa using hstop)
      rw [hlw]
      exact (List.take_of_length_le hwb).symm

/-! ### Case lemmas for one driver step -/

theorem stepId_fst_stopped {P : PrefillParams} {L id : Nat} {c : Core}
    (hs : c.stopped = true) : (stepId P L id c).1 = c := by
  simp [stepId, hs]

theorem stepId_snd_stopped {P : PrefillParams} {L id : Nat} {c : Core}
    (hs : c.stopped = true) : (stepId P L id c).2 = [] := by
  simp [stepId, hs]

theorem stepId_fst_skip {P : PrefillParams} {L id : Nat} {c : Core}
    (hs : c.stopped = false) (hg : ¬ (L ≤ levelAt P.nodes id ∧ ¬ id ∈ c.loaded)) :
    (stepId P L id c).1 = c := by
  simp only [stepId, hs]
  simp [hg]

theorem stepId_snd_skip {P : PrefillParams} {L id : Nat} {c : Core}
    (hs : c.stopped = false) (hg : ¬ (L ≤ levelAt P.nodes id ∧ ¬ id ∈ c.loaded)) :
    (stepId P L id c).2 =
      [Ev.lock (id % P.stripes), Ev.readLevel id (levelAt P.nodes id),
       Ev.unlock (id % P.stripes)] := by
  simp only [stepId, hs]
  simp [hg]

theorem stepId_fst_budget {P : PrefillParams} {L id : Nat} {c : Core}
    (hs : c.stopped = false) (hg : L ≤ levelAt P.nodes id ∧ ¬ id ∈ c.loaded)
    (hbud : P.B ≤ (c.loaded.length : Int)) :
    (stepId P L id c).1 = { c with stopped := true } := by
  simp [stepId, hs, hg.1, hg.2, hbud]

theorem stepId_snd_budget {P : PrefillParams} {L id : Nat} {c : Core}
    (hs : c.stopped = false) (hg : L ≤ levelAt P.nodes id ∧ ¬ id ∈ c.loaded)
    (hbud : P.B ≤ (c.loaded.length : Int)) :
    (stepId P L id c).2 =
      [Ev.lock (id % P.stripes), Ev.readLevel id (levelAt P.nodes id),
       Ev.unlock (id % P.stripes)] := by
  simp [stepId, hs, hg.1, hg.2, hbud]

theorem stepId_fst_cancel {P : PrefillParams} {L id : Nat} {c : Core}
    (hs : c.stopped = false) (hg : L ≤ levelAt P.nodes id ∧ ¬ id ∈ c.loaded)
    (hbud : ¬ P.B ≤ (c.loaded.length : Int))
    (hcan : cancelFires P.cancelAt c.polls = true) :
    (stepId P L id c).1 = { c with polls := c.polls + 1, stopped := true } := by
  simp [stepId, hs, hg.1, hg.2, hbud, hcan]

theorem stepId_snd_cancel {P : PrefillParams} {L id : Nat} {c : Core}
    (hs : c.stopped = false) (hg : L ≤ levelAt P.nodes id ∧ ¬ id ∈ c.loaded)
    (hbud : ¬ P.B ≤ (c.loaded.length : Int))
    (hcan : cancelFires P.cancelAt c.polls = true) :
    (stepId P L id c).2 =
      [Ev.lock (id % P.stripes), Ev.readLevel id (levelAt P.nodes id),
       Ev.unlock (id % P.stripes), Ev.poll] := by
  simp [stepId, hs, hg.1, hg.2, hbud, hcan]

theorem stepId_fst_load {P : PrefillParams} {L id : Nat} {c : Core}
    (hs : c.stopped = false) (hg : L ≤ levelAt P.nodes id ∧ ¬ id ∈ c.loaded)
    (hbud : ¬ P.B ≤ (c.loaded.length : Int))
    (hcan : cancelFires P.cancelAt c.polls = false) :
    (stepId P L id c).1 =
      { c with loaded := c.loaded ++ [id], polls := c.polls + 1 } := by
  simp [stepId, hs, hg.1, hg.2, hbud, hcan]

theorem stepId_snd_load {P : PrefillParams} {L id : Nat} {c : Core}
    (hs : c.stopped = false) (hg : L ≤ levelAt P.nodes id ∧ ¬ id ∈ c.loaded)
    (hbud : ¬ P.B ≤ (c.loaded.length : Int))
    (hcan : cancelFires P.cancelAt c.polls = false) :
    (stepId P L id c).2 =
      [Ev.lock (id % P.stripes), Ev.readLevel id (levelAt P.nodes id),
       Ev.unlock (id % P.stripes), Ev.poll, Ev.load id (P.loadErr id)] := by
  simp [stepId, hs, hg.1, hg.2, hbud, hcan]

/-! ### Poll counting and cancellation (C4) -/

/-- Poll invariant: at most one load per poll, and when the context fires at
poll index `k`, at most `k` loads are ever made. -/
def PollInv (P : PrefillParams) (c : Core) : Prop :=
  c.loaded.length ≤ c.polls ∧
    ∀ k, P.cancelAt = some k → c.loaded.length ≤ k

theorem stepId_pollInv {P : PrefillParams} {L id : Nat} {c : Core}
    (h : PollInv P c) : PollInv P (stepId P L id c).1 := by
  obtain ⟨h1, h2⟩ := h
  by_cases hs : c.stopped = true
  · rw [stepId_fst_stopped hs]
    exact ⟨h1, h2⟩
  · simp only [Bool.not_eq_true] at hs
    by_cases hg : L ≤ levelAt P.nodes id ∧ ¬ id ∈ c.loaded
    · by_cases hbud : P.B ≤ (c.loaded.length : Int)
      · rw [stepId_fst_budget hs hg hbud]
        exact ⟨h1, h2⟩
      · by_cases hcan : cancelFires P.cancelAt c.polls = true
        · rw [stepId_fst_cancel hs hg hbud hcan]
          exact ⟨Nat.le_succ_of_le h1, h2⟩
        · simp only [Bool.not_eq_true] at hcan
          rw [stepId_fst_load hs hg hbud hcan]
          constructor
          · simp only [List.length_append, List.length_singleton]
            omega
          · intro k hk
            rw [hk] at hcan
            simp only [cancelFires, decide_eq_false_iff_not] at hcan
            simp only [List.length_append, List.length_singleton]
            omega
    · rw [stepId_fst_skip hs hg]
      exact ⟨h1, h2⟩

theorem runIds_pollInv {P : PrefillParams} {L : Nat} :
    ∀ (ids : List Nat) (c : Core), PollInv P c → PollInv P (runIds P L ids c).1
  | [], _, h => h
  | id :: rest, c, h => runIds_pollInv rest (stepId P L id c).1 (stepId_pollInv h)

theorem runLayers_pollInv {P : PrefillParams} :
    ∀ (layers : List Nat) (c : Core), PollInv P c →
      PollInv P (runLayers P layers c).1
  | [], _, h => h
  | L :: rest, c, h =>
    runLayers_pollInv rest _ (runIds_pollInv (List.range P.nodes.length) c h)

theorem prefill_pollInv (P : PrefillParams) : PollInv P (Prefill P).1 := by
  unfold Prefill
  split
  · exact ⟨Nat.le_refl _, fun k _ => Nat.zero_le _⟩
  · exact runLayers_pollInv (layersTopDown P.maxLayer) initCore
      ⟨Nat.le_refl _, fun k _ => Nat.zero_le _⟩

/-! ### Every load is recorded, and load failures change nothing (C5) -/

theorem stepId_loads {P : PrefillParams} {L id : Nat} {c : Core} :
    (stepId P L id c).1.loaded = c.loaded ++ loadIdsOf (stepId P L id c).2 := by
  by_cases hs : c.stopped = true
  · rw [stepId_fst_stopped hs, stepId_snd_stopped hs]
    simp [loadIdsOf]
  · simp only [Bool.not_eq_true] at hs
    by_cases hg : L ≤ levelAt P.nodes id ∧ ¬ id ∈ c.loaded
    · by_cases hbud : P.B ≤ (c.loaded.length : Int)
      · rw [stepId_fst_budget hs hg hbud, stepId_snd_budget hs hg hbud]
        simp [loadIdsOf]
      · by_cases hcan : cancelFires P.cancelAt c.polls = true
        · rw [stepId_fst_cancel hs hg hbud hcan, stepId_snd_cancel hs hg hbud hcan]
          simp [loadIdsOf]
        · simp only [Bool.not_eq_true] at hcan
          rw [stepId_fst_load hs hg hbud hcan, stepId_snd_load hs hg hbud hcan]
          simp [loadIdsOf]
    · rw [stepId_fst_skip hs hg, stepId_snd_skip hs hg]
      simp [loadIdsOf]

theorem loadIdsOf_append (a b : List Ev) :
    loadIdsOf (a ++ b) = loadIdsOf a ++ loadIdsOf b := by
  simp [loadIdsOf]

theorem runIds_loads (P : PrefillParams) (L : Nat) :
    ∀ (ids : List Nat) (c : Core),
      (runIds P L ids c).1.loaded = c.loaded ++ loadIdsOf (runIds P L ids c).2
  | [], c => by simp [runIds, loadIdsOf]
  | id :: rest, c => by
    show (runIds P L rest (stepId P L id c).1).1.loaded =
      c.loaded ++ loadIdsOf ((stepId P L id c).2 ++
        (runIds P L rest (stepId P L id c).1).2)
    rw [loadIdsOf_append, ← List.append_assoc, ← stepId_loads,
      runIds_loads P L rest (stepId P L id c).1]

theorem runLayers_loads (P : PrefillParams) :
    ∀ (layers : List Nat) (c : Core),
      (runLayers P layers c).1.loaded =
        c.loaded ++ loadIdsOf (runLayers P layers c).2
  | [], c => by simp [runLayers, loadIdsOf]
  | L :: rest, c => by
    show (runLayers P rest (runIds P L (List.range P.nodes.length) c).1).1.loaded =
      c.loaded ++ loadIdsOf ((runIds P L (List.range P.nodes.length) c).2 ++
        (runLayers P rest (runIds P L (List.range P.nodes.length) c).1).2)
    rw [loadIdsOf_append, ← List.append_assoc,
      ← runIds_loads P L (List.range P.nodes.length) c,
      runLayers_loads P rest (runIds P L (List.range P.nodes.length) c).1]

theorem prefill_loads (P : PrefillParams) :
    loadedIds P = loadIdsOf (prefillTrace P) := by
  unfold loadedIds prefillTrace Prefill
  split
  · simp [initCore, loadIdsOf]
  · have h := runLayers_loads P (layersTopDown P.maxLayer) initCore
    simpa [initCore] using h

theorem stepId_err (P : PrefillParams) (e : Nat → Bool) (L id : Nat) (c : Core) :
    (stepId { P with loadErr := e } L id c).1 = (stepId P L id c).1 ∧
      loadIdsOf (stepId { P with loadErr := e } L id c).2 =
        loadIdsOf (stepId P L id c).2 := by
  by_cases hs : c.stopped = true
  · rw [stepId_fst_stopped hs, stepId_fst_stopped hs,
      stepId_snd_stopped hs, stepId_snd_stopped hs]
    exact ⟨rfl, rfl⟩
  · simp only [Bool.not_eq_true] at hs
    by_cases hg : L ≤ levelAt P.nodes id ∧ ¬ id ∈ c.loaded
    · by_cases hbud : P.B ≤ (c.loaded.length : Int)
      · rw [@stepId_fst_budget P L id c hs hg hbud,
          @stepId_fst_budget { P with loadErr := e } L id c hs hg hbud,
          @stepId_snd_budget P L id c hs hg hbud,
          @stepId_snd_budget { P with loadErr := e } L id c hs hg hbud]
        exact ⟨rfl, rfl⟩
      · by_cases hcan : cancelFires P.cancelAt c.polls = true
        · rw [@stepId_fst_cancel P L id c hs hg hbud hcan,
            @stepId_fst_cancel { P with loadErr := e } L id c hs hg hbud hcan,
            @stepId_snd_cancel P L id c hs hg hbud hcan,
            @stepId_snd_cancel { P with loadErr := e } L id c hs hg hbud hcan]
          exact ⟨rfl, rfl⟩
        · simp only [Bool.not_eq_true] at hcan
          rw [@stepId_fst_load P L id c hs hg hbud hcan,
            @stepId_fst_load { P with loadErr := e } L id c hs hg hbud hcan,
            @stepId_snd_load P L id c hs hg hbud hcan,
            @stepId_snd_load { P with loadErr := e } L id c hs hg hbud hcan]
          exact ⟨rfl, by simp [loadIdsOf]⟩
    · rw [@stepId_fst_skip P L id c hs hg,
        @stepId_fst_skip { P with loadErr := e } L id c hs hg,
        @stepId_snd_skip P L id c hs hg,
        @stepId_snd_skip { P with loadErr := e } L id c hs hg]
      exact ⟨rfl, rfl⟩

theorem runIds_err (P : PrefillParams) (e : Nat → Bool) (L : Nat) :
    ∀ (ids : List Nat) (c : Core),
      (runIds { P with loadErr := e } L ids c).1 = (runIds P L ids c).1
  | [], _ => rfl
  | id :: rest, c => by
    show (runIds { P with loadErr := e } L rest
        (stepId { P with loadErr := e } L id c).1).1 =
      (runIds P L rest (stepId P L id c).1).1
    rw [(stepId_err P e L id c).1]
    exact runIds_err P e L rest (stepId P L id c).1

theorem runLayers_err (P : PrefillParams) (e : Nat → Bool) :
    ∀ (layers : List Nat) (c : Core),
      (runLayers { P with loadErr := e } layers c).1 = (runLayers P layers c).1
  | [], _ => rfl
  | L :: rest, c => by
    show (runLayers { P with loadErr := e } rest
        (runIds { P with loadErr := e } L (List.range P.nodes.length) c).1).1 =
      (runLayers P rest (runIds P L (List.range P.nodes.length) c).1).1
    rw [runIds_err P e L (List.range P.nodes.length) c]
    exact runLayers_err P e rest (runIds P L (List.range P.nodes.length) c).1

theorem prefill_err (P : PrefillParams) (e : Nat → Bool) :
    loadedIds { P with loadErr := e } = loadedIds P := by
  unfold loadedIds Prefill
  split
  · split
    · rfl
    · next h1 h2 => exact absurd h1 h2
  · split
    · next h1 h2 => exact absurd h2 h1
    · exact congrArg Core.loaded
        (runLayers_err P e (layersTopDown P.maxLayer) initCore)

/-! ### Lock discipline (C7) -/

theorem checkLocks_poll (S : Nat) (r : List Ev) :
    checkLocks S (Ev.poll :: r) = checkLocks S r := rfl

theorem checkLocks_loadEv (S id : Nat) (err : Bool) (r : List Ev) :
    checkLocks S (Ev.load id err :: r) = checkLocks S r := rfl

theorem checkLocks_triple (S id lvl : Nat) (r : List Ev) :
    checkLocks S
        (Ev.lock (id % S) :: Ev.readLevel id lvl :: Ev.unlock (id % S) :: r) =
      checkLocks S r := by
  simp [checkLocks]

theorem stepId_checkLocks (P : PrefillParams) (L id : Nat) (c : Core)
    (tail : List Ev) :
    checkLocks P.stripes ((stepId P L id c).2 ++ tail) =
      checkLocks P.stripes tail := by
  by_cases hs : c.stopped = true
  · rw [stepId_snd_stopped hs]
    rfl
  · simp only [Bool.not_eq_true] at hs
    by_cases hg : L ≤ levelAt P.nodes id ∧ ¬ id ∈ c.loaded
    · by_cases hbud : P.B ≤ (c.loaded.length : Int)
      · rw [stepId_snd_budget hs hg hbud]
        simp only [List.cons_append, List.nil_append]
        rw [checkLocks_triple]
      · by_cases hcan : cancelFires P.cancelAt c.polls = true
        · rw [stepId_snd_cancel hs hg hbud hcan]
          simp only [List.cons_append, List.nil_append]
          rw [checkLocks_triple, checkLocks_poll]
        · simp only [Bool.not_eq_true] at hcan
          rw [stepId_snd_load hs hg hbud hcan]
          simp only [List.cons_append, List.nil_append]
          rw [checkLocks_triple, checkLocks_poll, checkLocks_loadEv]
    · rw [stepId_snd_skip hs hg]
      simp only [List.cons_append, List.nil_append]
      rw [checkLocks_triple]

theorem runIds_checkLocks (P : PrefillParams) (L : Nat) :
    ∀ (ids : List Nat) (c : Core) (tail : List Ev),
      checkLocks P.stripes ((runIds P L ids c).2 ++ tail) =
        checkLocks P.stripes tail
  | [], _, tail => by simp [runIds]
  | id :: rest, c, tail => by
    show checkLocks P.stripes
        (((stepId P L id c).2 ++ (runIds P L rest (stepId P L id c).1).2) ++ tail) =
      checkLocks P.stripes tail
    rw [List.append_assoc, stepId_checkLocks,
      runIds_checkLocks P L rest (stepId P L id c).1 tail]

theorem runLayers_checkLocks (P : PrefillParams) :
    ∀ (layers : List Nat) (c : Core) (tail : List Ev),
      checkLocks P.stripes ((runLayers P layers c).2 ++ tail) =
        checkLocks P.stripes tail
  | [], _, tail => by simp [runLayers]
  | L :: rest, c, tail => by
    show checkLocks P.stripes
        (((runIds P L (List.range P.nodes.length) c).2 ++
          (runLayers P rest (runIds P L (List.range P.nodes.length) c).1).2) ++ tail) =
      checkLocks P.stripes tail
    rw [List.append_assoc, runIds_checkLocks,
      runLayers_checkLocks P rest (runIds P L (List.range P.nodes.length) c).1 tail]

theorem prefill_checkLocks (P : PrefillParams) :
    checkLocks P.stripes (prefillTrace P) = true := by
  unfold prefillTrace Prefill
  split
  · rfl
  · have h := runLayers_checkLocks P (layersTopDown P.maxLayer) initCore []
    rwa [List.append_nil] at h

/-! ### Block decomposition and ordering of the warm-up sequence (C3) -/

theorem wIds_eq_filter (nodes : List vertex) (L : Nat) :
    ∀ (ids acc : List Nat), ids.Nodup →
      (∀ i ∈ ids, i ∈ acc ↔ L + 1 ≤ levelAt nodes i) →
      wIds nodes L ids acc = acc ++ ids.filter (fun i => levelAt nodes i == L)
  | [], acc, _, _ => by simp [wIds]
  | id :: rest, acc, hnd, hmem => by
    have hnd' : rest.Nodup := (List.nodup_cons.1 hnd).2
    have hid : id ∉ rest := (List.nodup_cons.1 hnd).1
    have hmem_id := hmem id (List.mem_cons_self _ _)
    show wIds nodes L rest (wStep nodes L id acc) = _
    by_cases hl : levelAt nodes id = L
    · have hnacc : id ∉ acc := by
        rw [hmem_id]
        omega
      have hstep : wStep nodes L id acc = acc ++ [id] := by
        simp [wStep, hnacc]
        omega
      rw [hstep, wIds_eq_filter nodes L rest (acc ++ [id]) hnd' ?hm]
      · simp only [List.filter_cons]
        have : (levelAt nodes id == L) = true := by simp [hl]
        rw [this]
        simp [List.append_assoc]
      case hm =>
        intro i hi
        have hne : i ≠ id := fun h => hid (h ▸ hi)
        rw [List.mem_append, List.mem_singleton,
          hmem i (List.mem_cons_of_mem _ hi)]
        constructor
        · rintro (hh | hh)
          · exact hh
          · exact absurd hh hne
        · exact fun hh => Or.inl hh
    · have hstep : wStep nodes L id acc = acc := by
        by_cases hge : L ≤ levelAt nodes id
        · have : id ∈ acc := hmem_id.2 (by omega)
          simp [wStep, this]
        · simp [wStep, hge]
      rw [hstep, wIds_eq_filter nodes L rest acc hnd'
        (fun i hi => hmem i (List.mem_cons_of_mem _ hi))]
      simp only [List.filter_cons]
      have hfb : (levelAt nodes id == L) = false := by simp [hl]
      rw [hfb]
      simp

theorem mem_layersTopDown (m x : Nat) : x ∈ layersTopDown m ↔ x ≤ m := by
  induction m with
  | zero =>
    simp [layersTopDown]
  | succ m ih =>
    simp [layersTopDown, ih]
    omega

theorem layersTopDown_pairwise (m : Nat) :
    (layersTopDown m).Pairwise (fun a b => b < a) := by
  induction m with
  | zero => simp [layersTopDown]
  | succ m ih =>
    show ((m + 1) :: layersTopDown m).Pairwise _
    rw [List.pairwise_cons]
    exact ⟨fun x hx => by have := (mem_layersTopDown m x).1 hx; omega, ih⟩

theorem wLayers_blocks (nodes : List vertex) :
    ∀ (m : Nat) (acc : List Nat),
      (∀ i ∈ List.range nodes.length, i ∈ acc ↔ m + 1 ≤ levelAt nodes i) →
      wLayers nodes (layersTopDown m) acc =
        acc ++ ((layersTopDown m).map (layerBlock nodes)).flatten
  | 0, acc, h => by
    show wIds nodes 0 (List.range nodes.length) acc = _
    rw [wIds_eq_filter nodes 0 (List.range nodes.length) acc
      (List.nodup_range _) h]
    simp [layersTopDown, layerBlock]
  | m + 1, acc, h => by
    show wLayers nodes (layersTopDown m)
      (wIds nodes (m + 1) (List.range nodes.length) acc) = _
    rw [wIds_eq_filter nodes (m + 1) (List.range nodes.length) acc
      (List.nodup_range _) h]
    rw [wLayers_blocks nodes m
      (acc ++ (List.range nodes.length).filter
        (fun i => levelAt nodes i == m + 1)) ?hm]
    · show _ = acc ++
        (layerBlock nodes (m + 1) :: (layersTopDown m).map (layerBlock nodes)).flatten
      rw [List.flatten_cons]
      rw [layerBlock, List.append_assoc]
    case hm =>
      intro i hi
      rw [List.mem_append, h i hi, List.mem_filter]
      constructor
      · rintro (hh | hh)
        · omega
        · have := hh.2
          simp only [beq_iff_eq] at this
          omega
      · intro hh
        by_cases hx : levelAt nodes i = m + 1
        · exact Or.inr ⟨hi, by simp [hx]⟩
        · exact Or.inl (by omega)

theorem warmupSeq_eq_flatten (nodes : List vertex) (M : Nat)
    (hlev : ∀ i ∈ List.range nodes.length, levelAt nodes i ≤ M) :
    warmupSeq nodes M = ((layersTopDown M).map (layerBlock nodes)).flatten := by
  have h := wLayers_blocks nodes M []
    (fun i hi => by
      simp only [List.not_mem_nil, false_iff]
      have := hlev i hi
      omega)
  simpa using h

theorem layerBlock_pairwise (nodes : List vertex) (L : Nat) :
    (layerBlock nodes L).Pairwise (loadOrder nodes) := by
  have h1 : (layerBlock nodes L).Pairwise (· < ·) :=
    (List.pairwise_lt_range _).filter _
  refine List.Pairwise.imp_of_mem ?_ h1
  intro a b ha hb hab
  have hla : levelAt nodes a = L := by
    have := (List.mem_filter.1 ha).2
    simpa using this
  have hlb : levelAt nodes b = L := by
    have := (List.mem_filter.1 hb).2
    simpa using this
  exact Or.inr ⟨hla.trans hlb.symm, hab⟩

theorem blocks_pairwise (nodes : List vertex) (m : Nat) :
    ((layersTopDown m).map (layerBlock nodes)).Pairwise
      (fun l₁ l₂ => ∀ x ∈ l₁, ∀ y ∈ l₂, loadOrder nodes x y) := by
  rw [List.pairwise_map]
  refine List.Pairwise.imp ?_ (layersTopDown_pairwise m)
  intro p q hpq x hx y hy
  have hlx : levelAt nodes x = p := by
    have := (List.mem_filter.1 hx).2
    simpa using this
  have hly : levelAt nodes y = q := by
    have := (List.mem_filter.1 hy).2
    simpa using this
  exact Or.inl (by omega)

theorem warmupSeq_pairwise (nodes : List vertex) (M : Nat)
    (hlev : ∀ i ∈ List.range nodes.length, levelAt nodes i ≤ M) :
    (warmupSeq nodes M).Pairwise (loadOrder nodes) := by
  rw [warmupSeq_eq_flatten nodes M hlev, List.pairwise_flatten]
  refine ⟨fun l hl => ?_, blocks_pairwise nodes M⟩
  obtain ⟨L, -, rfl⟩ := List.mem_map.1 hl
  exact layerBlock_pairwise nodes L

theorem pairwise_index_lt {nodes : List vertex} {l : List Nat} {a b : Nat}
    (hp : l.Pairwise (loadOrder nodes)) (ha : a ∈ l) (hb : b ∈ l)
    (hab : loadOrder nodes a b) : l.indexOf a < l.indexOf b := by
  have hia : l.indexOf a < l.length := List.indexOf_lt_length.2 ha
  have hib : l.indexOf b < l.length := List.indexOf_lt_length.2 hb
  by_contra hcon
  push_neg at hcon
  rcases Nat.eq_or_lt_of_le hcon with heq | hlt
  · have hba : b = a := by
      have h1 := List.getElem_indexOf hia
      have h2 := List.getElem_indexOf hib
      rw [← h2, ← h1]
      simp [heq]
    subst hba
    rcases hab with h1 | ⟨h1, h2⟩ <;> omega
  · have hthis := (List.pairwise_iff_getElem.1 hp) _ _ hib hia hlt
    rw [List.getElem_indexOf hia, List.getElem_indexOf hib] at hthis
    rcases hab with h1 | ⟨h1, h2⟩ <;> rcases hthis with h3 | ⟨h3, h4⟩ <;> omega

theorem levelAt_le_of_vertex (nodes : List vertex) (M : Nat)
    (hlev : ∀ v ∈ nodes, v.level ≤ M) :
    ∀ i ∈ List.range nodes.length, levelAt nodes i ≤ M := by
  intro i hi
  have hi' := List.mem_range.1 hi
  unfold levelAt
  rw [List.getElem?_eq_getElem hi']
  exact hlev _ (List.getElem_mem _)

/-! ### Claims about the prefiller -/

/-- Claim C1: for every `limit ≥ 0` (and an uncancelled context), the ids for
which `cache.load` is invoked are exactly the first
`min(limit, cache.currentCapacity(), N)` elements of the canonical warm-up
sequence `W`; the witness checks the test oracle at `limit = 10`, whose loaded
set is `{0, 15, 30, 45, 60, 75, 90, 5, 10, 20}`. -/
theorem claim_c1 (nodes : List vertex) (maxLayer : Nat) (limit capacity : Int)
    (stripes : Nat) (loadErr : Nat → Bool) (h : 0 ≤ limit) :
    loadedIds ⟨nodes, maxLayer, capacity, limit, none, loadErr, stripes⟩ =
      (warmupSeq nodes maxLayer).take
        (min limit (min capacity (nodes.length : Int))).toNat := by
  have h1 := prefill_eq_take
    ⟨nodes, maxLayer, capacity, limit, none, loadErr, stripes⟩ rfl
  rw [h1, List.take_eq_take]
  have hlen := warmupSeq_length nodes maxLayer
  rw [hlen]
  have hB : PrefillParams.B ⟨nodes, maxLayer, capacity, limit, none, loadErr,
      stripes⟩ = min limit capacity := rfl
  rw [hB]
  omega

/-- Witness for C1: the oracle scenario S3 (`limit = 10`). -/
theorem claim_c1_witness :
    (0 : Int) ≤ 10 ∧
      loadedIds (oracleParams 10 1000000 none (fun _ => false)) =
        [0, 15, 30, 45, 60, 75, 90, 5, 10, 20] := by
  refine ⟨by decide, ?_⟩
  show loadedIds ⟨generateDummyVertices 100, 3, 1000000, 10, none,
    fun _ => false, NodeLockStripe⟩ = _
  rw [claim_c1 (generateDummyVertices 100) 3 10 1000000 NodeLockStripe
    (fun _ => false) (by decide)]
  decide

/-- Claim C2: the effective budget is `B = min(limit, currentCapacity())`: if
`B ≤ 0` the call performs no loads (and emits no events at all), and for every
limit and cancellation behaviour at most `currentCapacity()` loads are made. -/
theorem claim_c2 (P : PrefillParams) :
    (P.B ≤ 0 → loadedIds P = [] ∧ prefillTrace P = []) ∧
      (loadedIds P).length ≤ P.capacity.toNat := by
  constructor
  · intro h
    unfold loadedIds prefillTrace Prefill
    rw [if_pos h]
    exact ⟨rfl, rfl⟩
  · have h1 := prefill_len_le P
    have h2 : P.B = min P.limit P.capacity := rfl
    omega

/-- Witness for C2: `limit = 0` is a no-op on the oracle fixture. -/
theorem claim_c2_witness :
    (loadedIds (oracleParams 0 1000000 none (fun _ => false)) = [] ∧
        prefillTrace (oracleParams 0 1000000 none (fun _ => false)) = []) ∧
      (loadedIds (oracleParams 0 1000000 none (fun _ => false))).length ≤
        (1000000 : Int).toNat :=
  ⟨(claim_c2 (oracleParams 0 1000000 none (fun _ => false))).1 (by decide),
   (claim_c2 (oracleParams 0 1000000 none (fun _ => false))).2⟩

/-- Claim C3: in any one prefill call the loads follow the priority order:
an invoked id of strictly higher level is invoked strictly before one of lower
level, and two invoked ids of the same level are invoked in ascending order
(given the graph invariant `level ≤ maxLayer`). -/
theorem claim_c3 (P : PrefillParams)
    (hlev : ∀ v ∈ P.nodes, v.level ≤ P.maxLayer) (a b : Nat)
    (ha : a ∈ loadedIds P) (hb : b ∈ loadedIds P) :
    (levelAt P.nodes b < levelAt P.nodes a →
      (loadedIds P).indexOf a < (loadedIds P).indexOf b) ∧
    (levelAt P.nodes a = levelAt P.nodes b → a < b →
      (loadedIds P).indexOf a < (loadedIds P).indexOf b) := by
  have hW := warmupSeq_pairwise P.nodes P.maxLayer
    (levelAt_le_of_vertex P.nodes P.maxLayer hlev)
  have hp : (loadedIds P).Pairwise (loadOrder P.nodes) :=
    hW.sublist (prefill_pre_warmup P).sublist
  exact ⟨fun hab => pairwise_index_lt hp ha hb (Or.inl hab),
    fun h1 h2 => pairwise_index_lt hp ha hb (Or.inr ⟨h1, h2⟩)⟩

/-- Witness for C3: on the oracle at `limit = 10`, id 15 (level 3) is invoked
before id 5 (level 2). -/
theorem claim_c3_witness :
    (loadedIds (oracleParams 10 1000000 none (fun _ => false))).indexOf 15 <
      (loadedIds (oracleParams 10 1000000 none (fun _ => false))).indexOf 5 :=
  (claim_c3 (oracleParams 10 1000000 none (fun _ => false)) (by decide) 15 5
    (by decide) (by decide)).1 (by decide)

/-- Claim C4: whatever poll the cancellation context fires at, the driver
stops issuing loads (no more loads than the index of the cancelling poll, and
never more loads than polls — the context is polled for every loaded
candidate), the call returns (the driver is a total function with no error
outcome), and the loaded ids always form a prefix of `W`. -/
theorem claim_c4 (P : PrefillParams) (k : Nat) (hk : P.cancelAt = some k) :
    loadedIds P <+: warmupSeq P.nodes P.maxLayer ∧
      (loadedIds P).length ≤ k ∧
      (loadedIds P).length ≤ (Prefill P).1.polls :=
  ⟨prefill_pre_warmup P, (prefill_pollInv P).2 k hk, (prefill_pollInv P).1⟩

/-- Witness for C4: oracle scenario S5, cancellation at the third poll. -/
theorem claim_c4_witness :
    loadedIds (oracleParams 7 1000000 (some 3) (fun _ => false)) <+:
        warmupSeq (generateDummyVertices 100) 3 ∧
      (loadedIds (oracleParams 7 1000000 (some 3) (fun _ => false))).length ≤ 3 ∧
      (loadedIds (oracleParams 7 1000000 (some 3) (fun _ => false))).length ≤
        (Prefill (oracleParams 7 1000000 (some 3) (fun _ => false))).1.polls :=
  claim_c4 (oracleParams 7 1000000 (some 3) (fun _ => false)) 3 rfl

/-- Claim C5: prefill never fails and swallows individual `cache.load`
failures: the loaded ids do not depend on which loads fail, and every id whose
load was attempted (successfully or not) is counted in the `Loaded`
bookkeeping and the traversal continues past it. -/
theorem claim_c5 (P : PrefillParams) (e : Nat → Bool) :
    loadedIds { P with loadErr := e } = loadedIds P ∧
      loadIdsOf (prefillTrace P) = loadedIds P :=
  ⟨prefill_err P e, (prefill_loads P).symm⟩

/-- Claim C6: within one prefill call every id is loaded at most once, and
when the budget covers the whole graph (`limit ≥ N`, `capacity ≥ N`, no
cancellation) every node is loaded exactly once. -/
theorem claim_c6 (P : PrefillParams) :
    (loadedIds P).Nodup ∧
      (P.cancelAt = none → (P.nodes.length : Int) ≤ P.limit →
        (P.nodes.length : Int) ≤ P.capacity →
        ∀ id < P.nodes.length, (loadedIds P).count id = 1) := by
  constructor
  · exact (warmupSeq_nodup P.nodes P.maxLayer).sublist
      (prefill_pre_warmup P).sublist
  · intro hc hlim hcap id hid
    have heq := prefill_eq_take P hc
    have hlen := warmupSeq_length P.nodes P.maxLayer
    have hB : P.B = min P.limit P.capacity := rfl
    have hBN : (warmupSeq P.nodes P.maxLayer).length ≤ P.B.toNat := by
      rw [hlen]
      omega
    rw [heq, List.take_of_length_le hBN]
    exact List.count_eq_one_of_mem (warmupSeq_nodup P.nodes P.maxLayer)
      (mem_warmupSeq hid)

/-- Witness for C6: oracle scenario S1 (`limit = 100`), id 42 loaded once. -/
theorem claim_c6_witness :
    (loadedIds (oracleParams 100 1000000 none (fun _ => false))).Nodup ∧
      (loadedIds (oracleParams 100 1000000 none (fun _ => false))).count 42 = 1 :=
  ⟨(claim_c6 (oracleParams 100 1000000 none (fun _ => false))).1,
   (claim_c6 (oracleParams 100 1000000 none (fun _ => false))).2 rfl
     (by decide) (by decide) 42 (by decide)⟩

/-- Claim C7: every per-node level read happens while holding exactly the
shard lock `id mod S` in shared mode, acquired just before and released just
after the read, and every `cache.load` call (and every context poll) happens
while holding no shard lock. -/
theorem claim_c7 (P : PrefillParams) :
    checkLocks P.stripes (prefillTrace P) = true :=
  prefill_checkLocks P

/-- Claim C8: the prefiller holds no mutable state across calls: a second
`Prefill` on the same prefiller object produces exactly the loads of a freshly
constructed prefiller over the same graph view and cache state, and the
`Loaded` scratch bookkeeping left by an earlier call never influences the
loads of a later one. -/
theorem claim_c8 (pf : vectorCachePrefiller) (l₁ l₂ : Int)
    (c₁ c₂ : Option Nat) (e₁ e₂ : Nat → Bool) :
    (PrefillCall (PrefillCall pf l₁ c₁ e₁).1 l₂ c₂ e₂).2 =
        (PrefillCall (newVectorCachePrefiller pf.nodes pf.maxLayer pf.capacity
          pf.stripes) l₂ c₂ e₂).2 ∧
      ∀ s : List Nat,
        (PrefillCall { pf with scratch := s } l₂ c₂ e₂).2 =
          (PrefillCall pf l₂ c₂ e₂).2 :=
  ⟨rfl, fun _ => rfl⟩
